import Mathlib

/-
  Verification of the Go-version pull-request maker
  (`.github/actions/pr-to-update-go/pr_to_update_go/go_pr_maker.py`).

  The Python module is shallowly embedded below.  External collaborators
  (the GitHub REST service, the local git working copy, the upstream Go
  release index) are modelled explicitly: the remote repository is a map
  from branch names to (head sha, file map) pairs, remote calls that the
  code only observes (search results, milestone listings, release-note
  fetches, dependency diffs) are passed in as oracle data.  Git blob ids
  are a collision-free function of file content, modelled injectively by
  tagging the content itself.
-/

/-- One entry of the list returned by the Go website's version listing API
(the `GoVersion` TypedDict; the `files` field is unused by the code and
omitted). -/
structure GoVersionRec where
  stable : Bool
  version : String
deriving Repr, DecidableEq

/- ---------------------------------------------------------------------
   get_major_version: `re.search(r'^\d+\.\d+', v)`, group 0 on a match,
   otherwise the empty string.  The anchored pattern matches the maximal
   leading digit run, a dot, then the maximal following digit run.
   --------------------------------------------------------------------- -/

/-- The anchored regex match of `^\d+\.\d+` on a character list:
the greedy leading digit run, a literal dot, then the greedy digit run
after it; `none` when the pattern does not match at the start. -/
def majorAux (cs : List Char) : Option (List Char) :=
  let d1 := cs.takeWhile Char.isDigit
  if d1.isEmpty then none
  else
    match cs.drop d1.length with
    | '.' :: rest =>
      let d2 := rest.takeWhile Char.isDigit
      if d2.isEmpty then none else some (d1 ++ '.' :: d2)
    | _ => none

/-- `get_major_version`: extracts the "major" version part (`<digits>.<digits>`)
of a full Go release version, or returns the empty string when the version
does not start with such a pattern. -/
def get_major_version (s : String) : String :=
  match majorAux s.data with
  | some cs => String.mk cs
  | none => ""

/-- Spec-side predicate (from the spec's words): `p` is a leading
`<digits>.<digits>` substring of `v`: a nonempty digit run, a dot, a
nonempty digit run, and `p` is a prefix of `v`. -/
def LeadingMM (p v : List Char) : Prop :=
  ∃ d1 d2 t, (∀ c ∈ d1, c.isDigit = true) ∧ (∀ c ∈ d2, c.isDigit = true) ∧
    0 < d1.length ∧ 0 < d2.length ∧ p = d1 ++ '.' :: d2 ∧ v = p ++ t

lemma takeWhile_digits_dot (d1 rest : List Char) (h : ∀ c ∈ d1, c.isDigit = true) :
    (d1 ++ '.' :: rest).takeWhile Char.isDigit = d1 := by
  induction d1 with
  | nil => simp [List.takeWhile_cons]
  | cons a as ih =>
    have ha : a.isDigit = true := h a (List.mem_cons_self a as)
    simp only [List.cons_append, List.takeWhile_cons, ha, if_true]
    rw [ih (fun c hc => h c (List.mem_cons_of_mem a hc))]

lemma len_le_takeWhile (p : Char → Bool) (e t : List Char) (h : ∀ c ∈ e, p c = true) :
    e.length ≤ ((e ++ t).takeWhile p).length := by
  induction e with
  | nil => simp
  | cons a as ih =>
    have ha : p a = true := h a (List.mem_cons_self a as)
    simp only [List.cons_append, List.takeWhile_cons, ha, if_true, List.length_cons]
    exact Nat.succ_le_succ (ih (fun c hc => h c (List.mem_cons_of_mem a hc)))

lemma mem_takeWhile_digit (l : List Char) (c : Char)
    (h : c ∈ l.takeWhile Char.isDigit) : c.isDigit = true := by
  induction l with
  | nil => simp [List.takeWhile] at h
  | cons a as ih =>
    rw [List.takeWhile_cons] at h
    by_cases ha : a.isDigit = true
    · rw [if_pos ha] at h
      rcases List.mem_cons.mp h with h1 | h2
      · exact h1 ▸ ha
      · exact ih h2
    · rw [if_neg ha] at h
      exact absurd h (List.not_mem_nil c)

/-- If some leading `<digits>.<digits>` pattern exists, `majorAux` succeeds. -/
lemma majorAux_some_of_leading (p v : List Char) (h : LeadingMM p v) :
    ∃ r, majorAux v = some r := by
  obtain ⟨d1, d2, t, hd1, hd2, hl1, hl2, hp, hv⟩ := h
  subst hp
  have hv' : v = d1 ++ '.' :: (d2 ++ t) := by simp [hv]
  have htk : v.takeWhile Char.isDigit = d1 := by
    rw [hv']; exact takeWhile_digits_dot d1 (d2 ++ t) hd1
  have hne : (v.takeWhile Char.isDigit).isEmpty = false := by
    rw [htk]
    cases d1 with
    | nil => simp at hl1
    | cons a as => rfl
  have hdrop : v.drop (v.takeWhile Char.isDigit).length = '.' :: (d2 ++ t) := by
    rw [htk, hv']
    exact List.drop_left d1 ('.' :: (d2 ++ t))
  have hd2len : 0 < ((d2 ++ t).takeWhile Char.isDigit).length :=
    Nat.lt_of_lt_of_le hl2 (len_le_takeWhile Char.isDigit d2 t hd2)
  have hd2ne : ((d2 ++ t).takeWhile Char.isDigit).isEmpty = false := by
    cases hm : (d2 ++ t).takeWhile Char.isDigit with
    | nil => rw [hm] at hd2len; simp at hd2len
    | cons a as => rfl
  refine ⟨v.takeWhile Char.isDigit ++ '.' :: (d2 ++ t).takeWhile Char.isDigit, ?_⟩
  unfold majorAux
  simp only [hne, Bool.false_eq_true, if_false, hdrop, hd2ne]

lemma pos_of_isEmpty_false (l : List Char) (h : l.isEmpty = false) :
    0 < l.length := by
  cases l <;> simp_all

/-- Characterisation of a successful `majorAux` match: the result is itself
a leading `<digits>.<digits>` substring, and it is the longest one. -/
lemma majorAux_eq_some (v res : List Char) (h : majorAux v = some res) :
    LeadingMM res v ∧ ∀ p, LeadingMM p v → p.length ≤ res.length := by
  unfold majorAux at h
  by_cases hne : (v.takeWhile Char.isDigit).isEmpty = true
  · rw [if_pos hne] at h
    exact absurd h (by simp)
  · rw [if_neg hne] at h
    have hveq : v = v.takeWhile Char.isDigit ++ v.dropWhile Char.isDigit :=
      (List.takeWhile_append_dropWhile Char.isDigit v).symm
    have hdrop : v.drop (v.takeWhile Char.isDigit).length = v.dropWhile Char.isDigit := by
      nth_rewrite 2 [hveq]
      exact List.drop_left _ _
    rw [hdrop] at h
    split at h
    next rest heq =>
      by_cases hd2e : (rest.takeWhile Char.isDigit).isEmpty = true
      · rw [if_pos hd2e] at h
        exact absurd h (by simp)
      · rw [if_neg hd2e] at h
        have hres := (Option.some.inj h).symm
        have hd1dig : ∀ c ∈ v.takeWhile Char.isDigit, c.isDigit = true :=
          fun c hc => mem_takeWhile_digit v c hc
        have hd2dig : ∀ c ∈ rest.takeWhile Char.isDigit, c.isDigit = true :=
          fun c hc => mem_takeWhile_digit rest c hc
        have hd1pos : 0 < (v.takeWhile Char.isDigit).length :=
          pos_of_isEmpty_false _ (Bool.eq_false_iff.mpr hne)
        have hd2pos : 0 < (rest.takeWhile Char.isDigit).length :=
          pos_of_isEmpty_false _ (Bool.eq_false_iff.mpr hd2e)
        have hveq2 : v = v.takeWhile Char.isDigit ++ '.' :: rest := by
          conv_lhs => rw [hveq, heq]
        have hrest : rest = rest.takeWhile Char.isDigit ++ rest.dropWhile Char.isDigit :=
          (List.takeWhile_append_dropWhile Char.isDigit rest).symm
        have hvres : v = res ++ rest.dropWhile Char.isDigit := by
          rw [hres]
          conv_lhs => rw [hveq2, hrest]
          simp
        have hlead : LeadingMM res v :=
          ⟨v.takeWhile Char.isDigit, rest.takeWhile Char.isDigit,
            rest.dropWhile Char.isDigit, hd1dig, hd2dig, hd1pos, hd2pos,
            hres, hvres⟩
        refine ⟨hlead, ?_⟩
        intro p hp
        obtain ⟨e1, e2, t', he1, he2, hl1, hl2, hpe, hvt⟩ := hp
        have hve : v = e1 ++ '.' :: (e2 ++ t') := by
          rw [hvt, hpe]; simp
        have he1eq : e1 = v.takeWhile Char.isDigit := by
          conv_rhs => rw [hve]
          exact (takeWhile_digits_dot e1 (e2 ++ t') he1).symm
        have hcat : v.takeWhile Char.isDigit ++ '.' :: (e2 ++ t')
            = v.takeWhile Char.isDigit ++ '.' :: rest := by
          rw [← he1eq, ← hve, hveq2, he1eq]
        have hcat2 := List.append_cancel_left hcat
        injection hcat2 with _ hrest2
        have he2le : e2.length ≤ (rest.takeWhile Char.isDigit).length := by
          rw [← hrest2]
          exact len_le_takeWhile Char.isDigit e2 t' he2
        rw [hpe, hres, he1eq]
        simp only [List.length_append, List.length_cons]
        omega
    next => exact absurd h (by simp)

/-- C9: `get_major_version` returns the longest leading `<digits>.<digits>`
substring of its argument, or the empty string when no such leading
substring exists; in particular it maps "1.23.45-6rc7" to "1.23" and
"not a release version" to "". -/
theorem c9_get_major_version :
    (∀ v : String,
        (get_major_version v = "" ∧ ∀ p, LeadingMM p v.data → False)
        ∨ (LeadingMM (get_major_version v).data v.data
           ∧ ∀ p, LeadingMM p v.data → p.length ≤ (get_major_version v).data.length))
    ∧ get_major_version "1.23.45-6rc7" = "1.23"
    ∧ get_major_version "not a release version" = "" := by
  refine ⟨?_, by decide, by decide⟩
  intro v
  cases hm : majorAux v.data with
  | none =>
    left
    constructor
    · unfold get_major_version
      rw [hm]
    · intro p hp
      obtain ⟨r, hr⟩ := majorAux_some_of_leading p v.data hp
      rw [hm] at hr
      exact absurd hr (by simp)
  | some res =>
    right
    have hch := majorAux_eq_some v.data res hm
    have hg : get_major_version v = String.mk res := by
      unfold get_major_version
      rw [hm]
    have hgd : (get_major_version v).data = res := by rw [hg]
    rw [hgd]
    exact hch

/-- C9 witness: the theorem evaluated at the concrete example inputs. -/
theorem c9_get_major_version_witness :
    get_major_version "1.23.45-6rc7" = "1.23" :=
  c9_get_major_version.2.1

/- ---------------------------------------------------------------------
   Error model.  GithubException carries a `data["message"]` value that
   the code inspects; it may be a string or something else (`nonStr`).
   The other constructors stand for the distinct Python exceptions the
   module raises itself.
   --------------------------------------------------------------------- -/

/-- The `data["message"]` payload of a GithubException: a string, or any
non-string JSON value. -/
inductive GhMessage where
  | str (s : String)
  | nonStr
deriving Repr, DecidableEq

/-- A GithubException, as far as the code observes it. -/
structure GhError where
  message : GhMessage
deriving Repr, DecidableEq

/-- The fatal errors a run can raise: a propagated GithubException, a 409
Conflict from a stale blob-hash precondition on update-file, a raised
`Exception(... not found ...)`, the `LookupError` in create_pr, and a
non-zero exit of the external dependency-refresh procedure. -/
inductive RunError where
  | gh (e : GhError)
  | conflict (path : String)
  | notFound (what : String)
  | lookupErr (msg : String)
  | externalTool
deriving Repr, DecidableEq

instance exceptDecEq {ε α : Type} [DecidableEq ε] [DecidableEq α] :
    DecidableEq (Except ε α) := fun a b =>
  match a, b with
  | .ok x, .ok y =>
    if h : x = y then .isTrue (by rw [h]) else .isFalse (by intro hc; cases hc; exact h rfl)
  | .ok _, .error _ => .isFalse (by intro hc; cases hc)
  | .error _, .ok _ => .isFalse (by intro hc; cases hc)
  | .error x, .error y =>
    if h : x = y then .isTrue (by rw [h]) else .isFalse (by intro hc; cases hc; exact h rfl)

/- ---------------------------------------------------------------------
   get_latest_major_upgrade: `re.search(r"[\d.]+", label)` on each feed
   record, skipping non-stable records, first major-prefix match wins,
   for/else raises on exhaustion.
   --------------------------------------------------------------------- -/

/-- A character matched by the `[\d.]+` token pattern. -/
def isVerChar (c : Char) : Bool := c.isDigit || c == '.'

/-- `re.search(r"[\d.]+", ·)` on a character list: the leftmost maximal
run of digit-or-dot characters, `none` if there is none. -/
def firstVerRun : List Char → Option (List Char)
  | [] => none
  | c :: cs => if isVerChar c then some (c :: cs.takeWhile isVerChar) else firstVerRun cs

/-- The numeric-dotted version token of a raw feed version label
(group 0 of `re.search(r"[\d.]+", label)`). -/
def extractVersionToken (s : String) : Option String :=
  (firstVerRun s.data).map (fun l => String.mk l)

/-- The `for ... else` loop of `get_latest_major_upgrade`: skip records
with `stable == false` and records whose label has no numeric token,
stop at the first token whose derived major prefix equals `major`,
raise when the feed is exhausted. -/
def latestLoop (major : String) : List GoVersionRec → Except RunError String
  | [] => .error (.notFound ("No supported " ++ major ++ " Go versions exist."))
  | r :: rest =>
    if r.stable then
      match extractVersionToken r.version with
      | some tok =>
        if major == get_major_version tok then .ok tok else latestLoop major rest
      | none => latestLoop major rest
    else latestLoop major rest

/-- `get_latest_major_upgrade`: the latest Go release in the feed with the
same major version as the given current version. -/
def get_latest_major_upgrade (from_go_version : String) (feed : List GoVersionRec) :
    Except RunError String :=
  latestLoop (get_major_version from_go_version) feed

/-- Spec-side definition (from the spec's words): filter the feed to
`stable == true`, extract the numeric-dotted token of each record, and
take the first token whose derived major prefix equals `major`. -/
def specLatestStable (major : String) (feed : List GoVersionRec) : Option String :=
  (feed.filter (fun r => r.stable)).findSome? (fun r =>
    match extractVersionToken r.version with
    | some tok => if major == get_major_version tok then some tok else none
    | none => none)

lemma specLatestStable_cons_skip (major : String) (r : GoVersionRec)
    (rest : List GoVersionRec) (hs : r.stable = false) :
    specLatestStable major (r :: rest) = specLatestStable major rest := by
  simp only [specLatestStable, List.filter_cons, hs, Bool.false_eq_true, if_false]

lemma specLatestStable_cons_notok (major : String) (r : GoVersionRec)
    (rest : List GoVersionRec) (hs : r.stable = true)
    (htok : extractVersionToken r.version = none) :
    specLatestStable major (r :: rest) = specLatestStable major rest := by
  simp only [specLatestStable, List.filter_cons, hs, if_true, List.findSome?_cons, htok]

lemma specLatestStable_cons_miss (major : String) (r : GoVersionRec)
    (rest : List GoVersionRec) (tok : String) (hs : r.stable = true)
    (htok : extractVersionToken r.version = some tok)
    (hmaj : (major == get_major_version tok) = false) :
    specLatestStable major (r :: rest) = specLatestStable major rest := by
  simp only [specLatestStable, List.filter_cons, hs, if_true, List.findSome?_cons, htok,
    hmaj, Bool.false_eq_true, if_false]

lemma specLatestStable_cons_hit (major : String) (r : GoVersionRec)
    (rest : List GoVersionRec) (tok : String) (hs : r.stable = true)
    (htok : extractVersionToken r.version = some tok)
    (hmaj : (major == get_major_version tok) = true) :
    specLatestStable major (r :: rest) = some tok := by
  simp only [specLatestStable, List.filter_cons, hs, if_true, List.findSome?_cons, htok,
    hmaj]

lemma latestLoop_eq_spec (major : String) (feed : List GoVersionRec) :
    latestLoop major feed =
      (match specLatestStable major feed with
       | some tok => .ok tok
       | none => .error (.notFound ("No supported " ++ major ++ " Go versions exist."))) := by
  induction feed with
  | nil => rfl
  | cons r rest ih =>
    cases hs : r.stable with
    | false =>
      rw [specLatestStable_cons_skip major r rest hs, ← ih]
      simp only [latestLoop, hs, Bool.false_eq_true, if_false]
    | true =>
      cases htok : extractVersionToken r.version with
      | none =>
        rw [specLatestStable_cons_notok major r rest hs htok, ← ih]
        simp only [latestLoop, hs, if_true, htok]
      | some tok =>
        cases hmaj : (major == get_major_version tok) with
        | true =>
          rw [specLatestStable_cons_hit major r rest tok hs htok hmaj]
          simp only [latestLoop, hs, if_true, htok, hmaj]
        | false =>
          rw [specLatestStable_cons_miss major r rest tok hs htok hmaj, ← ih]
          simp only [latestLoop, hs, if_true, htok, hmaj, Bool.false_eq_true, if_false]

lemma specLatestStable_mem (major : String) (feed : List GoVersionRec) (v : String)
    (h : specLatestStable major feed = some v) :
    ∃ r, r ∈ feed ∧ r.stable = true ∧ extractVersionToken r.version = some v ∧
      (major == get_major_version v) = true := by
  induction feed with
  | nil => simp [specLatestStable] at h
  | cons r rest ih =>
    cases hs : r.stable with
    | false =>
      rw [specLatestStable_cons_skip major r rest hs] at h
      obtain ⟨r0, hr0, hst, he, hm⟩ := ih h
      exact ⟨r0, List.mem_cons_of_mem r hr0, hst, he, hm⟩
    | true =>
      cases htok : extractVersionToken r.version with
      | none =>
        rw [specLatestStable_cons_notok major r rest hs htok] at h
        obtain ⟨r0, hr0, hst, he, hm⟩ := ih h
        exact ⟨r0, List.mem_cons_of_mem r hr0, hst, he, hm⟩
      | some tok =>
        cases hmaj : (major == get_major_version tok) with
        | true =>
          rw [specLatestStable_cons_hit major r rest tok hs htok hmaj] at h
          obtain rfl : tok = v := Option.some.inj h
          exact ⟨r, List.mem_cons_self r rest, hs, htok, hmaj⟩
        | false =>
          rw [specLatestStable_cons_miss major r rest tok hs htok hmaj] at h
          obtain ⟨r0, hr0, hst, he, hm⟩ := ih h
          exact ⟨r0, List.mem_cons_of_mem r hr0, hst, he, hm⟩

/-- C5: `get_latest_major_upgrade` equals the spec-side "filter stable,
first major-prefix match in feed order, error when none" computation, and
any version it returns comes from a `stable == true` record of the feed
whose extracted token it is, with the derived major prefix of the current
version. -/
theorem c5_get_latest_major_upgrade (fromV : String) (feed : List GoVersionRec) :
    get_latest_major_upgrade fromV feed =
      (match specLatestStable (get_major_version fromV) feed with
       | some tok => .ok tok
       | none => .error (.notFound
           ("No supported " ++ get_major_version fromV ++ " Go versions exist.")))
    ∧ ∀ v, get_latest_major_upgrade fromV feed = .ok v →
        ∃ r, r ∈ feed ∧ r.stable = true ∧ extractVersionToken r.version = some v ∧
          get_major_version v = get_major_version fromV := by
  have heq := latestLoop_eq_spec (get_major_version fromV) feed
  refine ⟨heq, ?_⟩
  intro v hv
  rw [get_latest_major_upgrade, heq] at hv
  cases hspec : specLatestStable (get_major_version fromV) feed with
  | none => rw [hspec] at hv; exact absurd hv (by simp)
  | some tok =>
    rw [hspec] at hv
    obtain rfl : tok = v := Except.ok.inj hv
    obtain ⟨r, hr, hst, he, hm⟩ := specLatestStable_mem _ _ _ hspec
    exact ⟨r, hr, hst, he, (eq_of_beq hm).symm⟩

/-- C5 witness: on a feed whose first record is unstable, the returned
version comes from the first stable record with a matching major prefix. -/
theorem c5_witness :
    ∃ r, r ∈ [GoVersionRec.mk false "go1.22.9", GoVersionRec.mk true "go1.22.5"] ∧
      r.stable = true ∧ extractVersionToken r.version = some "1.22.5" ∧
      get_major_version "1.22.5" = get_major_version "1.22.1" :=
  (c5_get_latest_major_upgrade "1.22.1"
    [GoVersionRec.mk false "go1.22.9", GoVersionRec.mk true "go1.22.5"]).2
    "1.22.5" (by decide)

/- ---------------------------------------------------------------------
   Remote repository model.  A branch is a head commit id plus a flat
   map from file path to full decoded content (directories are not
   modelled; every tracked path is a regular file).  Git blob and commit
   ids are collision-free functions of their content; the model tags the
   content itself, which is injective like the real hash.
   --------------------------------------------------------------------- -/

/-- The file map of one branch head: path to full decoded content. -/
abbrev Files := List (String × String)

def fileGet (fs : Files) (p : String) : Option String :=
  (fs.find? (fun e => e.1 == p)).map (fun e => e.2)

def fileSet (fs : Files) (p c : String) : Files :=
  (p, c) :: fs.filter (fun e => !(e.1 == p))

/-- The git blob id of a file content. -/
def blobSha (content : String) : String := "blob:" ++ content

/-- The commit id minted by an update-file call. -/
def commitShaOf (branch path content : String) : String :=
  "commit:" ++ branch ++ ":" ++ path ++ ":" ++ content

structure BranchSt where
  headSha : String
  files : Files
deriving Repr, DecidableEq

structure RepoState where
  branches : List (String × BranchSt)
deriving Repr, DecidableEq

def getBranch (st : RepoState) (b : String) : Option BranchSt :=
  (st.branches.find? (fun e => e.1 == b)).map (fun e => e.2)

def setBranch (st : RepoState) (b : String) (bs : BranchSt) : RepoState :=
  ⟨(b, bs) :: st.branches.filter (fun e => !(e.1 == b))⟩

/-- A PyGitHub `Commit` as far as the code uses it: its sha, its message
and (via `git log -1 --pretty=%T`) its tree, materialised as a file map.
Author metadata is carried by no claim and is omitted. -/
structure CommitObj where
  sha : String
  message : String
  treeFiles : Files
deriving Repr, DecidableEq

/-- A PyGitHub `GitCommit` created by `create_git_commit`. -/
structure GitCommitM where
  sha : String
  message : String
  parents : List String
  treeFiles : Files
deriving Repr, DecidableEq

/-- The observable remote calls of one run. -/
inductive Effect where
  | createRef (branch sha : String)
  | updateFile (branch path content sha message : String)
  | gitFetch
  | gitCheckout (sha : String)
  | runScript
  | createGitCommit (sha : String)
  | patchRef (branch sha : String)
  | createPull (head base title : String)
  | addLabel (label : String)
deriving Repr, DecidableEq

/-- An open pull request as the search loop observes it: its number, the
exact head ref of the retrieved pull, and its html url. -/
structure PRInfo where
  number : Nat
  headRef : String
  htmlUrl : String
deriving Repr, DecidableEq

/-- A milestone of the upstream Go repository: its title and the
`html_url` field of its raw data, which `dict.get` may find absent. -/
structure MilestoneM where
  title : String
  htmlUrl : Option String
deriving Repr, DecidableEq

/-- The environment of one run: the configuration read from environment
variables and the answers of the external collaborators (dependency
diff oracle, PR search results, milestone listing, release-notes fetch,
label lookup). -/
structure Env where
  goVersionFile : String
  gitAuthorName : Option String
  scriptOk : Bool
  changed : String → Option String
  search : List PRInfo
  milestones : List MilestoneM
  releaseNotes : Except RunError String
  labelExists : Bool
  repoOwner : String

/-- `file_contents`: decoded content and blob id of a path on a branch.
A missing ref surfaces as the remote's "No commit found for the ref ..."
GithubException; a missing path as "Not Found". -/
def file_contents (st : RepoState) (file : String) (branch : String) :
    Except GhError (String × String) :=
  match getBranch st branch with
  | none => .error ⟨.str ("No commit found for the ref " ++ branch)⟩
  | some bs =>
    match fileGet bs.files file with
    | none => .error ⟨.str "Not Found"⟩
    | some c => .ok (c, blobSha c)

/-- `get_repo_go_version`: the full decoded content of the designated
version file at the head of the given branch. -/
def get_repo_go_version (st : RepoState) (goVersionFile : String) (branch : String) :
    Except GhError String :=
  match file_contents st goVersionFile branch with
  | .ok pr => .ok pr.1
  | .error e => .error e

/-- `re.match` of a literal pattern: the pattern compared at position 0. -/
def listStartsWith : List Char → List Char → Bool
  | [], _ => true
  | _ :: _, [] => false
  | a :: as, b :: bs => a == b && listStartsWith as bs

def matchesAtStart (pat s : String) : Bool := listStartsWith pat.data s.data

/-- The check of `branch_exists`'s except-clause: the exception's
`data["message"]` is a string and `re.match("No commit found for the ref",
message)` succeeds. -/
def isRefNotFoundMsg (m : GhMessage) : Bool :=
  match m with
  | .str s => matchesAtStart "No commit found for the ref" s
  | .nonStr => false

/-- `branch_exists`: true when reading the pinned version off the branch
succeeded and it equals the expected latest version; a "No commit found
for the ref" GithubException is swallowed into false; any other
GithubException is re-raised. -/
def branch_exists (latest : String) (readRes : Except GhError String) :
    Except GhError Bool :=
  match readRes with
  | .ok v => .ok (latest == v)
  | .error e => if isRefNotFoundMsg e.message then .ok false else .error e

/-- The remote update-file call: requires the supplied sha to equal the
current blob id of the target path, else fails with 409 Conflict. -/
def update_file (st : RepoState) (branch path content message sha : String) :
    Except RunError (CommitObj × RepoState) :=
  match getBranch st branch with
  | none => .error (.gh ⟨.str ("No commit found for the ref " ++ branch)⟩)
  | some bs =>
    match fileGet bs.files path with
    | none => .error (.gh ⟨.str "Not Found"⟩)
    | some cur =>
      if blobSha cur == sha then
        let files2 := fileSet bs.files path content
        let csha := commitShaOf branch path content
        .ok (⟨csha, message, files2⟩, setBranch st branch ⟨csha, files2⟩)
      else .error (.conflict path)

/-- `os.path.dirname` on a repository-relative path: everything before
the last slash, or the empty string when the path has no slash. -/
def dirnameOf (p : String) : String :=
  if p.data.contains '/' then
    String.mk (((p.data.reverse.dropWhile (fun c => !(c == '/'))).drop 1).reverse)
  else ""

/-- `os.path.join(os.path.dirname(go_version_file), ".env")`. -/
def envPathOf (p : String) : String :=
  let d := dirnameOf p
  if d == "" then ".env" else d ++ "/.env"

/-- `set_go_version`: creates the working branch off master's head and
commits the two file updates in sequence.  The content written to the
version file is the literal string `"$" + version + "\n"` (the source's
f-string `f"${go_version}\n"` keeps the dollar sign as a literal
character), and the sha precondition supplied with the second (.env)
update re-reads the blob id of the version file, not of .env — both
exactly as in the source. -/
def set_go_version (env : Env) (st : RepoState)
    (go_version commit_message source_branch_name : String) :
    Except RunError (CommitObj × RepoState) × List Effect :=
  match getBranch st "master" with
  | none => (.error (.gh ⟨.str "Branch not found"⟩), [])
  | some master =>
    match getBranch st source_branch_name with
    | some _ => (.error (.gh ⟨.str "Reference already exists"⟩), [])
    | none =>
      let st1 := setBranch st source_branch_name ⟨master.headSha, master.files⟩
      let eff1 := [Effect.createRef source_branch_name master.headSha]
      match file_contents st1 env.goVersionFile source_branch_name with
      | .error e => (.error (.gh e), eff1)
      | .ok pr1 =>
        let content1 := "$" ++ go_version ++ "\n"
        let eff2 := eff1 ++ [Effect.updateFile source_branch_name env.goVersionFile
          content1 pr1.2 commit_message]
        match update_file st1 source_branch_name env.goVersionFile content1
            commit_message pr1.2 with
        | .error e => (.error e, eff2)
        | .ok res1 =>
          match file_contents res1.2 env.goVersionFile source_branch_name with
          | .error e => (.error (.gh e), eff2)
          | .ok pr2 =>
            let env_path := envPathOf env.goVersionFile
            let content2 := "GO_VERSION=" ++ go_version ++ "\n"
            let eff3 := eff2 ++ [Effect.updateFile source_branch_name env_path
              content2 pr2.2 commit_message]
            match update_file res1.2 source_branch_name env_path content2
                commit_message pr2.2 with
            | .error e => (.error e, eff3)
            | .ok res2 => (.ok res2, eff3)

/- ---------------------------------------------------------------------
   Concrete repository snapshots used to evaluate set_go_version.
   --------------------------------------------------------------------- -/

/-- Master pins 1.22.1: version file "1.22.1\n", .env "GO_VERSION=1.22.1\n". -/
def stBump : RepoState :=
  ⟨[("master", ⟨"sha-master",
      [("GO_VERSION", "1.22.1\n"), (".env", "GO_VERSION=1.22.1\n")]⟩)]⟩

def envBump : Env :=
  ⟨"GO_VERSION", none, true, fun _ => none, [], [], .ok "notes", true, "owner"⟩

/-- Master pins 1.23.0; used for the sha-precondition evaluation. -/
def stBump2 : RepoState :=
  ⟨[("master", ⟨"m0",
      [("GO_VERSION", "1.23.0\n"), (".env", "GO_VERSION=1.23.0\n")]⟩)]⟩

/-- C2: evaluating `set_go_version` at version "1.22.5" shows the version
file is written with literal content "$1.22.5\n" — not "1.22.5\n" as the
claim states — and the second (.env) update then fails with Conflict, so
the two claimed commits are never both made.  Both update-file calls do
share the single commit message. -/
theorem c2_set_go_version_divergence :
    (set_go_version envBump stBump "1.22.5" "Update Go version to 1.22.5"
        "go-1.22.5").2 =
      [Effect.createRef "go-1.22.5" "sha-master",
       Effect.updateFile "go-1.22.5" "GO_VERSION" "$1.22.5\n" (blobSha "1.22.1\n")
         "Update Go version to 1.22.5",
       Effect.updateFile "go-1.22.5" ".env" "GO_VERSION=1.22.5\n" (blobSha "$1.22.5\n")
         "Update Go version to 1.22.5"]
    ∧ ("$1.22.5\n" == "1.22.5\n") = false
    ∧ (set_go_version envBump stBump "1.22.5" "Update Go version to 1.22.5"
        "go-1.22.5").1 = .error (.conflict ".env") := by
  refine ⟨by decide, by decide, by decide⟩

/-- C3: evaluating `set_go_version` at version "1.23.1" shows the second
update-file call (target path ".env") supplies `blobSha "$1.23.1\n"` — the
blob id of the version file after the first update — which differs from
the .env file's own current blob id `blobSha "GO_VERSION=1.23.0\n"`, so
the call fails with Conflict. -/
theorem c3_env_sha_divergence :
    (set_go_version envBump stBump2 "1.23.1" "Update Go version to 1.23.1"
        "go-1.23.1").2 =
      [Effect.createRef "go-1.23.1" "m0",
       Effect.updateFile "go-1.23.1" "GO_VERSION" "$1.23.1\n" (blobSha "1.23.0\n")
         "Update Go version to 1.23.1",
       Effect.updateFile "go-1.23.1" ".env" "GO_VERSION=1.23.1\n" (blobSha "$1.23.1\n")
         "Update Go version to 1.23.1"]
    ∧ (blobSha "$1.23.1\n" == blobSha "GO_VERSION=1.23.0\n") = false
    ∧ (set_go_version envBump stBump2 "1.23.1" "Update Go version to 1.23.1"
        "go-1.23.1").1 = .error (.conflict ".env") := by
  refine ⟨by decide, by decide, by decide⟩

/-- C6: `branch_exists` answers true only when the branch read succeeded
and returned exactly the expected latest version; a read that failed with
a "No commit found for the ref" GithubException yields false rather than
propagating; a read that failed with any other GithubException re-raises
it. -/
theorem c6_branch_exists (latest : String) (res : Except GhError String) :
    (branch_exists latest res = .ok true → res = .ok latest)
    ∧ (∀ v, res = .ok v → branch_exists latest res = .ok (latest == v))
    ∧ (∀ e, res = .error e → isRefNotFoundMsg e.message = true →
        branch_exists latest res = .ok false)
    ∧ (∀ e, res = .error e → isRefNotFoundMsg e.message = false →
        branch_exists latest res = .error e) := by
  refine ⟨?_, ?_, ?_, ?_⟩
  · intro h
    cases res with
    | ok v =>
      simp only [branch_exists] at h
      have hb := Except.ok.inj h
      rw [eq_of_beq hb]
    | error e =>
      simp only [branch_exists] at h
      by_cases hm : isRefNotFoundMsg e.message = true
      · rw [if_pos hm] at h
        exact absurd (Except.ok.inj h) (by simp)
      · rw [if_neg hm] at h
        exact absurd h (by simp)
  · intro v hv
    rw [hv]
    rfl
  · intro e he hm
    rw [he]
    simp [branch_exists, hm]
  · intro e he hm
    rw [he]
    simp [branch_exists, hm]

/-- C6 witness: the three behaviours at concrete inputs. -/
theorem c6_branch_exists_witness :
    branch_exists "1.22.5" (.ok "1.22.5") = .ok true
    ∧ branch_exists "1.22.5"
        (.error ⟨.str "No commit found for the ref go-1.22.5"⟩) = .ok false
    ∧ branch_exists "1.22.5" (.error ⟨.str "Not Found"⟩) =
        .error ⟨.str "Not Found"⟩ :=
  ⟨((c6_branch_exists "1.22.5" (.ok "1.22.5")).2.1 "1.22.5" rfl).trans (by decide),
   (c6_branch_exists "1.22.5"
      (.error ⟨.str "No commit found for the ref go-1.22.5"⟩)).2.2.1
      ⟨.str "No commit found for the ref go-1.22.5"⟩ rfl (by decide),
   (c6_branch_exists "1.22.5" (.error ⟨.str "Not Found"⟩)).2.2.2
      ⟨.str "Not Found"⟩ rfl (by decide)⟩

/- ---------------------------------------------------------------------
   update_golang_org_x: checkout of the bump commit, the external
   refresh script (check=True), a diff check on a fixed list of
   dependency manifests, and a single bundling commit off the bump
   commit's tree.  The diff results are the oracle `changed`: the new
   full content of a path when `git diff` reported a difference.
   --------------------------------------------------------------------- -/

/-- The fixed `files_to_check` list. -/
def filesToCheck : List String := ["go.mod", "go.sum", "vendor/modules.txt"]

/-- The tree elements built from the diff results, in `files_to_check`
order: one `(path, new content)` entry per changed tracked file. -/
def pendingChanges (changed : String → Option String) : List (String × String) :=
  filesToCheck.filterMap (fun f => (changed f).map (fun c => (f, c)))

/-- `create_git_tree(tree_elements, base_tree)`: the base tree with each
element's path overlaid by its new blob. -/
def overlayTree (base : Files) (elems : List (String × String)) : Files :=
  elems.foldl (fun acc e => fileSet acc e.1 e.2) base

/-- `update_golang_org_x`: fetch and check out the bump commit, run the
refresh script (a non-zero exit raises), collect changed manifests; with
no change return None, otherwise create one git commit whose sole parent
is the bump commit and whose tree overlays the changed blobs on the bump
commit's tree. -/
def update_golang_org_x (scriptOk : Bool) (changed : String → Option String)
    (latest : String) (prev : CommitObj) :
    Except RunError (Option GitCommitM) × List Effect :=
  match scriptOk with
  | false =>
    (.error .externalTool, [Effect.gitFetch, Effect.gitCheckout prev.sha, Effect.runScript])
  | true =>
    let elems := pendingChanges changed
    if elems.isEmpty then
      (.ok none, [Effect.gitFetch, Effect.gitCheckout prev.sha, Effect.runScript])
    else
      (.ok (some ⟨"commit:x:" ++ latest ++ ":" ++ prev.sha,
          "Update golang.org/x/ dependencies for go" ++ latest,
          [prev.sha], overlayTree prev.treeFiles elems⟩),
        [Effect.gitFetch, Effect.gitCheckout prev.sha, Effect.runScript,
         Effect.createGitCommit ("commit:x:" ++ latest ++ ":" ++ prev.sha)])

lemma fileGet_fileSet_self (fs : Files) (p c : String) :
    fileGet (fileSet fs p c) p = some c := by
  unfold fileGet fileSet
  rw [List.find?_cons_of_pos _ (by simp)]
  rfl

lemma find?_filter_ne (fs : Files) (p q : String) (hq : q ≠ p) :
    (fs.filter (fun e => !(e.1 == p))).find? (fun e => e.1 == q) =
      fs.find? (fun e => e.1 == q) := by
  induction fs with
  | nil => rfl
  | cons a l ih =>
    by_cases hap : a.1 = p
    · rw [List.filter_cons, if_neg (by simp [hap])]
      rw [ih]
      rw [List.find?_cons_of_neg _ (by simp [hap]; exact fun hh => hq hh.symm)]
    · rw [List.filter_cons, if_pos (by simp [hap])]
      by_cases haq : a.1 = q
      · rw [List.find?_cons_of_pos _ (by simp [haq]),
          List.find?_cons_of_pos _ (by simp [haq])]
      · rw [List.find?_cons_of_neg _ (by simp [haq]),
          List.find?_cons_of_neg _ (by simp [haq])]
        exact ih

lemma fileGet_fileSet_ne (fs : Files) (p c q : String) (hq : q ≠ p) :
    fileGet (fileSet fs p c) q = fileGet fs q := by
  unfold fileGet fileSet
  rw [List.find?_cons_of_neg _ (by simp; exact fun hh => hq hh.symm)]
  rw [find?_filter_ne fs p q hq]

lemma fileGet_overlay_of_not_mem (elems : List (String × String)) (base : Files)
    (q : String) (h : ∀ e ∈ elems, e.1 ≠ q) :
    fileGet (overlayTree base elems) q = fileGet base q := by
  induction elems generalizing base with
  | nil => rfl
  | cons e l ih =>
    show fileGet (overlayTree (fileSet base e.1 e.2) l) q = fileGet base q
    rw [ih (fileSet base e.1 e.2) (fun x hx => h x (List.mem_cons_of_mem e hx))]
    exact fileGet_fileSet_ne base e.1 e.2 q
      (fun hh => h e (List.mem_cons_self e l) hh.symm)

lemma fileGet_overlay_of_mem (elems : List (String × String)) (base : Files)
    (q c : String) (hnd : (elems.map Prod.fst).Nodup) (h : (q, c) ∈ elems) :
    fileGet (overlayTree base elems) q = some c := by
  induction elems generalizing base with
  | nil => cases h
  | cons e l ih =>
    show fileGet (overlayTree (fileSet base e.1 e.2) l) q = some c
    rcases List.mem_cons.mp h with h1 | h2
    · have he1 : e.1 = q := by rw [← h1]
      have hq : ∀ x ∈ l, x.1 ≠ q := by
        intro x hx hxq
        have hqm : q ∈ l.map Prod.fst := hxq ▸ List.mem_map_of_mem Prod.fst hx
        rw [List.map_cons, List.nodup_cons, he1] at hnd
        exact hnd.1 hqm
      rw [fileGet_overlay_of_not_mem l (fileSet base e.1 e.2) q hq]
      have he2 : e.2 = c := by rw [← h1]
      rw [he1, he2]
      exact fileGet_fileSet_self base q c
    · rw [List.map_cons, List.nodup_cons] at hnd
      exact ih (fileSet base e.1 e.2) hnd.2 h2

lemma filterMapKeys (g : String → Option String) (l : List String) :
    (l.filterMap (fun f => (g f).map (fun c => (f, c)))).map Prod.fst =
      l.filter (fun f => (g f).isSome) := by
  induction l with
  | nil => rfl
  | cons a t ih =>
    cases hg : g a with
    | none => simp [List.filterMap_cons, hg, List.filter_cons, ih]
    | some c => simp [List.filterMap_cons, hg, List.filter_cons, ih]

lemma pendingChanges_nodup (changed : String → Option String) :
    ((pendingChanges changed).map Prod.fst).Nodup := by
  rw [pendingChanges, filterMapKeys]
  exact List.Nodup.filter _ (by decide)

lemma mem_pendingChanges (changed : String → Option String) (q nc : String)
    (hq : changed q = some nc) (hmem : q ∈ filesToCheck) :
    (q, nc) ∈ pendingChanges changed := by
  rw [pendingChanges]
  exact List.mem_filterMap.mpr ⟨q, hmem, by rw [hq]; rfl⟩

/-- C7: with the refresh script succeeding, an empty set of pending
changes yields None and no commit; a non-empty set yields a commit whose
sole parent is the bump commit, whose tree agrees with the bump commit's
tree away from the changed paths, and carries the new content at each
changed tracked path. -/
theorem c7_update_golang_org_x (changed : String → Option String) (latest : String)
    (prev : CommitObj) :
    ((pendingChanges changed).isEmpty = true →
        (update_golang_org_x true changed latest prev).1 = .ok none)
    ∧ (∀ c, (update_golang_org_x true changed latest prev).1 = .ok (some c) →
        c.parents = [prev.sha]
        ∧ (∀ q, (∀ e ∈ pendingChanges changed, e.1 ≠ q) →
            fileGet c.treeFiles q = fileGet prev.treeFiles q)
        ∧ (∀ q nc, changed q = some nc → q ∈ filesToCheck →
            fileGet c.treeFiles q = some nc))
    ∧ ((pendingChanges changed).isEmpty = false →
        ∃ c, (update_golang_org_x true changed latest prev).1 = .ok (some c)) := by
  refine ⟨?_, ?_, ?_⟩
  · intro he
    simp [update_golang_org_x, he]
  · intro c h
    cases hiE : (pendingChanges changed).isEmpty with
    | true =>
      simp [update_golang_org_x, hiE] at h
    | false =>
      simp only [update_golang_org_x, hiE, Bool.false_eq_true, if_false] at h
      have hc := Option.some.inj (Except.ok.inj h)
      refine ⟨by rw [← hc], ?_, ?_⟩
      · intro q hq
        rw [← hc]
        exact fileGet_overlay_of_not_mem (pendingChanges changed) prev.treeFiles q hq
      · intro q nc hqc hmem
        rw [← hc]
        exact fileGet_overlay_of_mem (pendingChanges changed) prev.treeFiles q nc
          (pendingChanges_nodup changed) (mem_pendingChanges changed q nc hqc hmem)
  · intro he
    simp only [update_golang_org_x, he, Bool.false_eq_true, if_false]
    exact ⟨_, rfl⟩

/-- Diff oracle for the C7 witness: only go.sum changed. -/
def changedW : String → Option String :=
  fun f => if f == "go.sum" then some "NEWSUM" else none

def prevW : CommitObj :=
  ⟨"p0", "Update Go version to 1.22.5", [("go.sum", "OLD"), ("go.mod", "MOD")]⟩

def bundledW : GitCommitM :=
  ⟨"commit:x:1.22.5:p0", "Update golang.org/x/ dependencies for go1.22.5",
    ["p0"], [("go.sum", "NEWSUM"), ("go.mod", "MOD")]⟩

/-- C7 witness: at the concrete diff oracle, the bundling commit's parent
is the bump commit, go.mod is untouched and go.sum carries the new blob. -/
theorem c7_update_golang_org_x_witness :
    bundledW.parents = ["p0"]
    ∧ fileGet bundledW.treeFiles "go.mod" = fileGet prevW.treeFiles "go.mod"
    ∧ fileGet bundledW.treeFiles "go.sum" = some "NEWSUM" := by
  have H := (c7_update_golang_org_x changedW "1.22.5" prevW).2.1 bundledW (by decide)
  exact ⟨H.1, H.2.1 "go.mod" (by decide), H.2.2 "go.sum" "NEWSUM" rfl (by decide)⟩

/- ---------------------------------------------------------------------
   get_go_milestone and create_pr.
   --------------------------------------------------------------------- -/

/-- The milestone loop of `get_go_milestone`: the first milestone, in
listing order, whose title equals the sought title exactly. -/
def findMilestone (title : String) : List MilestoneM → Option MilestoneM
  | [] => none
  | m :: rest => if m.title == title then some m else findMilestone title rest

/-- `get_go_milestone`: lists the milestones of the upstream Go tracking
repository and returns `raw_data.get('html_url')` of the first milestone
whose title equals `"Go" + go_version` (the full version string); raises
its not-found exception when no title matches. -/
def get_go_milestone (go_version : String) (milestones : List MilestoneM) :
    Except RunError (Option String) :=
  match findMilestone ("Go" ++ go_version) milestones with
  | some m => .ok m.htmlUrl
  | none => .error (.notFound ("Could not find a milestone named Go" ++ go_version ++ "."))

/-- `get_pr_body`.  Modelled from the spec: the template file
`pr_template.md` lives outside the embedded module, and the spec says the
body is rendered from it with the substitutions {version, derived major
version, release notes, milestone URL}; the release-notes fetch is the
oracle `releaseNotes`.  The rendered text is modelled as a tagged
concatenation of the four substitutions. -/
def get_pr_body (releaseNotes : Except RunError String)
    (go_version milestone_url : String) : Except RunError String :=
  match releaseNotes with
  | .error e => .error e
  | .ok notes => .ok ("PR_BODY[" ++ go_version ++ "|" ++ get_major_version go_version
      ++ "|" ++ notes ++ "|" ++ milestone_url ++ "]")

/-- The distinct exit points of `create_pr`: an early return on a
pre-existing open PR for the branch (nothing created, nothing edited),
or the creation of a new PR. -/
inductive PROutcome where
  | existing (pr : PRInfo)
  | created (head base title : String)
deriving Repr, DecidableEq

/-- `create_pr`: search open PRs for the branch; retrieve each result and
return as soon as one's head ref equals the branch name exactly; else
resolve the milestone URL (None raises LookupError before anything is
created), render the body and create the pull; label attachment is
best-effort. -/
def create_pr (latest_go_version commit_message owner source_branch_name
    target_branch : String) (search : List PRInfo) (milestones : List MilestoneM)
    (releaseNotes : Except RunError String) (labelExists : Bool) :
    Except RunError PROutcome × List Effect :=
  match search.find? (fun pr => pr.headRef == source_branch_name) with
  | some pr => (.ok (.existing pr), [])
  | none =>
    match get_go_milestone latest_go_version milestones with
    | .error e => (.error e, [])
    | .ok none =>
      (.error (.lookupErr ("no milestone found for '$" ++ latest_go_version ++ "'")), [])
    | .ok (some url) =>
      match get_pr_body releaseNotes latest_go_version url with
      | .error e => (.error e, [])
      | .ok _body =>
        if labelExists then
          (.ok (.created (owner ++ ":" ++ source_branch_name) target_branch
              commit_message),
            [Effect.createPull (owner ++ ":" ++ source_branch_name) target_branch
              commit_message, Effect.addLabel "go version"])
        else
          (.ok (.created (owner ++ ":" ++ source_branch_name) target_branch
              commit_message),
            [Effect.createPull (owner ++ ":" ++ source_branch_name) target_branch
              commit_message])

lemma findMilestone_spec (title : String) (ms : List MilestoneM) :
    (∃ pre m0 post, ms = pre ++ m0 :: post
      ∧ (∀ m ∈ pre, (m.title == title) = false)
      ∧ (m0.title == title) = true ∧ findMilestone title ms = some m0)
    ∨ ((∀ m ∈ ms, (m.title == title) = false) ∧ findMilestone title ms = none) := by
  induction ms with
  | nil => exact Or.inr ⟨(by intro m hm; cases hm), rfl⟩
  | cons m rest ih =>
    cases hm : (m.title == title) with
    | true =>
      left
      exact ⟨[], m, rest, rfl, (by intro x hx; cases hx), hm,
        (by simp [findMilestone, hm])⟩
    | false =>
      rcases ih with ⟨pre, m0, post, hms, hpre, hm0, hfind⟩ | ⟨hall, hfind⟩
      · left
        refine ⟨m :: pre, m0, post, (by rw [hms]; rfl), ?_, hm0,
          by simp [findMilestone, hm, hfind]⟩
        intro x hx
        rcases List.mem_cons.mp hx with h1 | h2
        · rw [h1]; exact hm
        · exact hpre x h2
      · right
        refine ⟨?_, by simp [findMilestone, hm, hfind]⟩
        intro x hx
        rcases List.mem_cons.mp hx with h1 | h2
        · rw [h1]; exact hm
        · exact hall x h2

/-- C1 counterexample: for version "1.23.0" against milestone titles
["Go1.23", "Go1.22"] the lookup does NOT return the "Go1.23" URL — it
seeks the exact title "Go1.23.0" and raises its not-found exception. -/
theorem c1_counterexample :
    get_go_milestone "1.23.0"
      [⟨"Go1.23", some "https://go.example/milestone/123"⟩,
       ⟨"Go1.22", some "https://go.example/milestone/122"⟩] =
      .error (.notFound "Could not find a milestone named Go1.23.0.") := by
  decide

/-- C1 (amended): milestone resolution matches on an exact title equal to
"Go" followed by the full version string (not the major.minor prefix):
the first milestone so titled supplies its raw html_url, and when no
milestone carries that exact title the lookup fails with its not-found
exception; e.g. version "1.23.0" resolves against the title "Go1.23.0". -/
theorem c1_get_go_milestone (v : String) (ms : List MilestoneM) :
    ((∃ pre m0 post, ms = pre ++ m0 :: post
        ∧ (∀ m ∈ pre, (m.title == "Go" ++ v) = false)
        ∧ (m0.title == "Go" ++ v) = true
        ∧ get_go_milestone v ms = .ok m0.htmlUrl)
      ∨ ((∀ m ∈ ms, (m.title == "Go" ++ v) = false)
        ∧ get_go_milestone v ms =
            .error (.notFound ("Could not find a milestone named Go" ++ v ++ "."))))
    ∧ get_go_milestone "1.23.0"
        [⟨"Go1.23.0", some "URL0"⟩, ⟨"Go1.22", some "URL2"⟩] = .ok (some "URL0") := by
  constructor
  · rcases findMilestone_spec ("Go" ++ v) ms with
      ⟨pre, m0, post, hms, hpre, hm0, hfind⟩ | ⟨hall, hfind⟩
    · exact Or.inl ⟨pre, m0, post, hms, hpre, hm0, by simp [get_go_milestone, hfind]⟩
    · exact Or.inr ⟨hall, by simp [get_go_milestone, hfind]⟩
  · decide

/-- C1 witness: the amended behaviour evaluated at the example input. -/
theorem c1_get_go_milestone_witness :
    get_go_milestone "1.23.0"
      [⟨"Go1.23.0", some "URL0"⟩, ⟨"Go1.22", some "URL2"⟩] = .ok (some "URL0") :=
  (c1_get_go_milestone "1.23.0"
    [⟨"Go1.23.0", some "URL0"⟩, ⟨"Go1.22", some "URL2"⟩]).2

lemma find?_some_of_mem {α : Type} (p : α → Bool) (l : List α) (a : α)
    (ha : a ∈ l) (hp : p a = true) :
    ∃ b, l.find? p = some b ∧ b ∈ l ∧ p b = true := by
  induction l with
  | nil => cases ha
  | cons x t ih =>
    cases hx : p x with
    | true =>
      exact ⟨x, (by rw [List.find?_cons_of_pos _ hx]), List.mem_cons_self x t, hx⟩
    | false =>
      have hat : a ∈ t := by
        rcases List.mem_cons.mp ha with h1 | h2
        · rw [h1] at hp
          rw [hp] at hx
          exact Bool.noConfusion hx
        · exact h2
      obtain ⟨b, hb, hbm, hbp⟩ := ih hat
      exact ⟨b, (by rw [List.find?_cons_of_neg _ (by simp [hx])]; exact hb),
        List.mem_cons_of_mem x hbm, hbp⟩

/-- C8: whenever some retrieved open PR's head ref equals the working
branch name exactly, create_pr returns an existing such PR and performs
no remote call at all (no creation, no edit); and search results none of
whose head refs equal the branch name leave the behaviour identical to
an empty search result, i.e. false positives are ignored. -/
theorem c8_create_pr (latest cm owner branch target : String) (search : List PRInfo)
    (ms : List MilestoneM) (rn : Except RunError String) (lbl : Bool) (pr : PRInfo)
    (hmem : pr ∈ search) (hhead : pr.headRef = branch) :
    (∃ pr0, pr0 ∈ search ∧ pr0.headRef = branch
      ∧ create_pr latest cm owner branch target search ms rn lbl =
          (.ok (.existing pr0), []))
    ∧ ∀ s2 : List PRInfo, (∀ q ∈ s2, (q.headRef == branch) = false) →
        create_pr latest cm owner branch target s2 ms rn lbl =
          create_pr latest cm owner branch target [] ms rn lbl := by
  constructor
  · obtain ⟨b, hb, hbm, hbp⟩ := find?_some_of_mem
      (fun q => q.headRef == branch) search pr hmem
      (by show (pr.headRef == branch) = true; rw [hhead]; exact beq_self_eq_true branch)
    exact ⟨b, hbm, eq_of_beq hbp, by simp [create_pr, hb]⟩
  · intro s2 hs2
    have hnone : s2.find? (fun q => q.headRef == branch) = none :=
      List.find?_eq_none.mpr (fun x hx => by simp [hs2 x hx])
    simp [create_pr, hnone]

/-- Search results for the C8 witness: a false positive first, then the
real branch PR. -/
def searchW : List PRInfo :=
  [⟨1, "some-other-branch", "u1"⟩, ⟨2, "go-1.22.5", "u2"⟩]

/-- C8 witness: with a false positive ahead of the matching PR, create_pr
returns the matching PR and creates nothing. -/
theorem c8_create_pr_witness :
    ∃ pr0, pr0 ∈ searchW ∧ pr0.headRef = "go-1.22.5"
      ∧ create_pr "1.22.5" "Update Go version to 1.22.5" "owner" "go-1.22.5" "master"
          searchW [] (.ok "notes") true = (.ok (.existing pr0), []) :=
  (c8_create_pr "1.22.5" "Update Go version to 1.22.5" "owner" "go-1.22.5" "master"
    searchW [] (.ok "notes") true ⟨2, "go-1.22.5", "u2"⟩ (by decide) rfl).1

/-- C10: when the first milestone titled "Go" + version carries no
`html_url` field in its raw data, get_go_milestone returns ok-None even
though a matching milestone was found, and create_pr (with no open PR for
the branch) raises LookupError before creating any pull request. -/
theorem c10_milestone_without_url (v cm owner branch target : String)
    (search : List PRInfo) (ms : List MilestoneM)
    (rn : Except RunError String) (lbl : Bool) (m : MilestoneM)
    (hsearch : ∀ q ∈ search, (q.headRef == branch) = false)
    (hfind : findMilestone ("Go" ++ v) ms = some m)
    (hurl : m.htmlUrl = none) :
    get_go_milestone v ms = .ok none
    ∧ create_pr v cm owner branch target search ms rn lbl =
        (.error (.lookupErr ("no milestone found for '$" ++ v ++ "'")), []) := by
  have hget : get_go_milestone v ms = .ok none := by
    simp [get_go_milestone, hfind, hurl]
  refine ⟨hget, ?_⟩
  have hnone : search.find? (fun q => q.headRef == branch) = none :=
    List.find?_eq_none.mpr (fun x hx => by simp [hsearch x hx])
  simp [create_pr, hnone, hget]

/-- Milestone list for the C10 witness: the matching title exists but its
raw data has no html_url. -/
def msNoUrl : List MilestoneM := [⟨"Go1.24.0", none⟩]

/-- C10 witness: the LookupError path evaluated at a concrete input. -/
theorem c10_milestone_without_url_witness :
    get_go_milestone "1.24.0" msNoUrl = .ok none
    ∧ create_pr "1.24.0" "msg" "owner" "go-1.24.0" "master" [] msNoUrl
        (.ok "notes") true =
        (.error (.lookupErr "no milestone found for '$1.24.0'"), []) :=
  c10_milestone_without_url "1.24.0" "msg" "owner" "go-1.24.0" "master" [] msNoUrl
    (.ok "notes") true ⟨"Go1.24.0", none⟩ (by intro q hq; cases hq) (by decide) rfl

/- ---------------------------------------------------------------------
   update_branch and the orchestrator run.
   --------------------------------------------------------------------- -/

/-- `update_branch`: the raw PATCH on the branch ref.  The remote accepts
only fast-forward updates (no force), so the new commit must have the
current head among its parents; otherwise the PATCH is rejected. -/
def update_branch (st : RepoState) (branch newSha : String) (newFiles : Files)
    (parents : List String) : Except RunError RepoState :=
  match getBranch st branch with
  | none => .error (.gh ⟨.str ("No commit found for the ref " ++ branch)⟩)
  | some bs =>
    if parents.contains bs.headSha then .ok (setBranch st branch ⟨newSha, newFiles⟩)
    else .error (.gh ⟨.str "Update is not a fast forward"⟩)

/-- The distinct return points of `run`: the up-to-date no-op, the
version-only early exit, and the full pipeline ending in create_pr. -/
inductive RunOutcome where
  | upToDate
  | versionOnly
  | finished (pr : PROutcome)
deriving Repr, DecidableEq

/-- The PR-publishing tail of `run`. -/
def runPR (env : Env) (latest cm : String) (st : RepoState) (effs : List Effect) :
    Except RunError RunOutcome × List Effect × RepoState :=
  match create_pr latest cm env.repoOwner ("go-" ++ latest) "master" env.search
      env.milestones env.releaseNotes env.labelExists with
  | (.error e, peffs) => (.error e, effs ++ peffs, st)
  | (.ok o, peffs) => (.ok (.finished o), effs ++ peffs, st)

/-- The tail of `run` after the bump commit is in hand: sync the local
working copy, optionally stop (version-only mode), refresh golang.org/x
dependencies, fast-forward the branch when that bundled a commit, then
publish the PR. -/
def runTail (env : Env) (latest cm : String) (commit : CommitObj) (st : RepoState)
    (effs : List Effect) (update_version_only : Bool) :
    Except RunError RunOutcome × List Effect × RepoState :=
  let effs1 := effs ++ [Effect.gitFetch, Effect.gitCheckout commit.sha]
  if update_version_only then (.ok .versionOnly, effs1, st)
  else
    match update_golang_org_x env.scriptOk env.changed latest commit with
    | (.error e, xeffs) => (.error e, effs1 ++ xeffs, st)
    | (.ok none, xeffs) => runPR env latest cm st (effs1 ++ xeffs)
    | (.ok (some gc), xeffs) =>
      match update_branch st ("go-" ++ latest) gc.sha gc.treeFiles gc.parents with
      | .error e =>
        (.error e, effs1 ++ xeffs ++ [Effect.patchRef ("go-" ++ latest) gc.sha], st)
      | .ok st2 =>
        runPR env latest cm st2 (effs1 ++ xeffs ++ [Effect.patchRef ("go-" ++ latest) gc.sha])

/-- `run`: read the pinned version off master, resolve the latest stable
upstream version of the same major line, stop when they are equal;
otherwise ensure the working branch exists at the new version (committing
the bump via set_go_version when it does not), then hand over to the
dependency-refresh and publishing tail.  The Commit object fetched for a
pre-existing branch carries the branch head's sha and tree; its message
is never read by the code. -/
def run (env : Env) (feed : List GoVersionRec) (st : RepoState)
    (update_version_only : Bool) :
    Except RunError RunOutcome × List Effect × RepoState :=
  match get_repo_go_version st env.goVersionFile "master" with
  | .error e => (.error (.gh e), [], st)
  | .ok repoV =>
    match get_latest_major_upgrade repoV feed with
    | .error e => (.error e, [], st)
    | .ok latest =>
      if repoV == latest then (.ok .upToDate, [], st)
      else
        match branch_exists latest
            (get_repo_go_version st env.goVersionFile ("go-" ++ latest)) with
        | .error e => (.error (.gh e), [], st)
        | .ok bex =>
          if bex then
            match getBranch st ("go-" ++ latest) with
            | none =>
              (.error (.gh ⟨.str ("No commit found for the ref go-" ++ latest)⟩), [], st)
            | some bs =>
              runTail env latest ("Update Go version to " ++ latest)
                ⟨bs.headSha, "", bs.files⟩ st [] update_version_only
          else
            match set_go_version env st latest ("Update Go version to " ++ latest)
                ("go-" ++ latest) with
            | (.error e, seffs) => (.error e, seffs, st)
            | (.ok res, seffs) =>
              runTail env latest ("Update Go version to " ++ latest)
                res.1 res.2 seffs update_version_only

/-- C4: when the pinned version read from the default branch is exactly
the latest stable upstream version of its major line, the run stops on
the up-to-date path: it performs no remote call at all and leaves the
repository untouched — no branch created, no file updated, no PR
created. -/
theorem c4_run_up_to_date (env : Env) (feed : List GoVersionRec) (st : RepoState)
    (uvo : Bool) (v : String)
    (hread : get_repo_go_version st env.goVersionFile "master" = .ok v)
    (hlatest : get_latest_major_upgrade v feed = .ok v) :
    run env feed st uvo = (.ok .upToDate, [], st) := by
  simp [run, hread, hlatest]

/-- Inputs for the C4 witness: master pins "1.22.1" and the feed's latest
stable 1.22 release is 1.22.1. -/
def stUp : RepoState := ⟨[("master", ⟨"ms", [("GO_VERSION", "1.22.1")]⟩)]⟩

def envUp : Env :=
  ⟨"GO_VERSION", none, true, fun _ => none, [], [], .ok "notes", true, "owner"⟩

def feedUp : List GoVersionRec := [⟨true, "go1.22.1"⟩]

/-- C4 witness: the up-to-date run evaluated at the concrete input. -/
theorem c4_run_up_to_date_witness :
    run envUp feedUp stUp false = (.ok .upToDate, [], stUp) :=
  c4_run_up_to_date envUp feedUp stUp false "1.22.1" (by decide) (by decide)
